import Mathlib

/-!
Shallow embedding of the rule-based correction engine of `src/app.py`
(functions `get_rules`, `apply_case_like`, `correct_text`).

Strings are modelled as `List Char`.  Character classification mirrors the
CPython behaviour of `str.isupper`, `str.islower`, `str.upper`, `str.strip`
and of the `re` module with `re.IGNORECASE` on the ASCII and Latin-1 ranges,
which cover every character the stored rules and inputs use.  Outside those
ranges Unicode classification is not modelled; the two Latin-1 letters whose
Python uppercase mapping is not a single subtracted code point (U+00DF and
U+00FF) are left fixed by `upperChar` and noted there.

The compiled regular expressions of `correct_text` are modelled by a small
pattern compiler (`lexPat`) over the exact pattern strings the code builds
(`buildPattern`), so that a malformed pattern is an `Except.error`, exactly
as an uncaught `re.error` would abort `correct_text` (the code has no
try/except around `re.compile`).
-/

/-- Code points 65-90 and 192-222 minus 215: the upper-case letters of the
ASCII and Latin-1 ranges, as classified by Python `str.isupper`. -/
def upperNat (n : Nat) : Bool :=
  (Nat.ble 65 n && Nat.ble n 90) || (Nat.ble 192 n && Nat.ble n 222 && !(n == 215))

/-- Code points 97-122 and 223-255 minus 247: the lower-case letters of the
ASCII and Latin-1 ranges, as classified by Python `str.islower`. -/
def lowerNat (n : Nat) : Bool :=
  (Nat.ble 97 n && Nat.ble n 122) || (Nat.ble 223 n && Nat.ble n 255 && !(n == 247))

/-- ASCII decimal digits. -/
def digitNat (n : Nat) : Bool := Nat.ble 48 n && Nat.ble n 57

/-- Word characters in the sense of the `re` pattern `\w` (letters, digits,
underscore), restricted to the ASCII and Latin-1 ranges. -/
def wordNat (n : Nat) : Bool := upperNat n || lowerNat n || digitNat n || n == 95

/-- Case folding used to model `re.IGNORECASE` on literal characters:
upper-case letters are mapped to their lower-case form, everything else is
fixed. -/
def foldNat (n : Nat) : Nat := if upperNat n then n + 32 else n

/-- A character carries at least one case (it is a cased character in the
Python sense). -/
def isCasedC (c : Char) : Bool := upperNat c.toNat || lowerNat c.toNat

/-- Python `str.isupper`: at least one cased character and no lower-case
character. -/
def py_isupper (s : List Char) : Bool :=
  s.any (fun c => isCasedC c) && s.all (fun c => !(lowerNat c.toNat))

/-- Python `str.islower`: at least one cased character and no upper-case
character. -/
def py_islower (s : List Char) : Bool :=
  s.any (fun c => isCasedC c) && s.all (fun c => !(upperNat c.toNat))

/-- Python `str.upper` on one character of the modelled ranges.  U+00DF and
U+00FF are left fixed: in CPython the former maps to the two-letter string
SS and the latter to U+0178, both outside the modelled character set. -/
def upperChar (c : Char) : Char :=
  if Nat.ble 97 c.toNat && Nat.ble c.toNat 122 then Char.ofNat (c.toNat - 32)
  else if Nat.ble 224 c.toNat && Nat.ble c.toNat 254 && !(c.toNat == 247) then
    Char.ofNat (c.toNat - 32)
  else c

/-- Python `str.upper` on a string of the modelled ranges. -/
def pyUpper (s : List Char) : List Char := s.map upperChar

/-- Whitespace stripped by Python `str.strip` (the ASCII whitespace
characters together with U+0085 and U+00A0; the higher Unicode space code
points do not occur in the modelled data). -/
def isPySpace (c : Char) : Bool :=
  c == ' ' || c == '\t' || c == '\n' || c == '\r' || c.toNat == 11 || c.toNat == 12 ||
    c.toNat == 28 || c.toNat == 29 || c.toNat == 30 || c.toNat == 31 ||
    c.toNat == 133 || c.toNat == 160

/-- Python `str.strip`: remove leading and trailing whitespace. -/
def pyStrip (s : List Char) : List Char :=
  ((s.dropWhile isPySpace).reverse.dropWhile isPySpace).reverse

/-- `apply_case_like` of `src/app.py`: preserve the casing style of the
matched text when substituting the stored replacement. -/
def apply_case_like (source_text replacement : List Char) : List Char :=
  if py_isupper source_text then pyUpper replacement
  else if py_isupper (source_text.take 1) && py_islower (source_text.drop 1) then
    pyUpper (replacement.take 1) ++ replacement.drop 1
  else replacement

/-- The characters escaped by Python `re.escape` (3.7+): the special
characters of the `re` syntax together with whitespace and a few extras. -/
def reSpecial : List Char :=
  ['(', ')', '[', ']', '{', '}', '?', '*', '+', '-', '|', '^', '$', '\\', '.',
   '&', '~', '#', ' ', '\t', '\n', '\r', Char.ofNat 11, Char.ofNat 12]

/-- Python `re.escape`: put a backslash before every special character. -/
def reEscape : List Char → List Char
  | [] => []
  | c :: rest => (if c ∈ reSpecial then ['\\', c] else [c]) ++ reEscape rest

/-- The classification `" " not in wrong.strip()` of `correct_text`: a rule
is compiled with `\b` anchors exactly when its stripped wrong form contains
no space character. -/
def singleTok (w : List Char) : Bool := !((pyStrip w).contains ' ')

/-- The pattern string `correct_text` hands to `re.compile`: either
`\b
ESCAPED\b` for a single token or `(?<!\w)ESCAPED(?!\w)` for a phrase. -/
def buildPattern (w : List Char) : List Char :=
  if singleTok w then '\\' :: 'b' :: (reEscape w ++ ['\\', 'b'])
  else
    '(' :: '?' :: '<' :: '!' :: '\\' :: 'w' :: ')' ::
      (reEscape w ++ ['(', '?', '!', '\\', 'w', ')'])

/-- Tokens of the compiled patterns: the word-boundary assertion `\b`, the
negative lookbehind `(?<!\w)`, the negative lookahead `(?!\w)`, and literal
characters. -/
inductive Tok where
  | wordB : Tok
  | negLB : Tok
  | negLA : Tok
  | lit : Char → Tok
deriving DecidableEq, Repr

/-- Metacharacters that the pattern compiler rejects when they occur
unescaped (the constructs of `re` syntax not supported by this model). -/
def reMeta : List Char :=
  [')', '[', ']', '{', '}', '?', '*', '+', '|', '^', '$', '.']

/-- Scanner states of the pattern compiler: at top level, after a
backslash, or part way through one of the two lookaround groups
(the character sequences of the lookbehind and the lookahead). -/
inductive LexSt where
  | top | esc | g0 | gq | glb1 | glb2 | glb3 | glb4 | gla1 | gla2 | gla3
deriving DecidableEq, Repr

/-- One character step of the pattern compiler: the successor state and the
tokens completed by this character, or a compilation error for a bad
escape, a stray metacharacter or an unsupported group. -/
def lexStep : LexSt → Char → Except String (LexSt × List Tok)
  | LexSt.top, c =>
    if c == '\\' then Except.ok (LexSt.esc, [])
    else if c == '(' then Except.ok (LexSt.g0, [])
    else if c ∈ reMeta then Except.error "unsupported metacharacter"
    else Except.ok (LexSt.top, [Tok.lit c])
  | LexSt.esc, c =>
    if c == 'b' then Except.ok (LexSt.top, [Tok.wordB])
    else if c.isAlphanum then Except.error "bad escape"
    else Except.ok (LexSt.top, [Tok.lit c])
  | LexSt.g0, c =>
    if c == '?' then Except.ok (LexSt.gq, []) else Except.error "unsupported group"
  | LexSt.gq, c =>
    if c == '<' then Except.ok (LexSt.glb1, [])
    else if c == '!' then Except.ok (LexSt.gla1, [])
    else Except.error "unsupported group"
  | LexSt.glb1, c =>
    if c == '!' then Except.ok (LexSt.glb2, []) else Except.error "unsupported group"
  | LexSt.glb2, c =>
    if c == '\\' then Except.ok (LexSt.glb3, []) else Except.error "unsupported group"
  | LexSt.glb3, c =>
    if c == 'w' then Except.ok (LexSt.glb4, []) else Except.error "unsupported group"
  | LexSt.glb4, c =>
    if c == ')' then Except.ok (LexSt.top, [Tok.negLB]) else Except.error "unsupported group"
  | LexSt.gla1, c =>
    if c == '\\' then Except.ok (LexSt.gla2, []) else Except.error "unsupported group"
  | LexSt.gla2, c =>
    if c == 'w' then Except.ok (LexSt.gla3, []) else Except.error "unsupported group"
  | LexSt.gla3, c =>
    if c == ')' then Except.ok (LexSt.top, [Tok.negLA]) else Except.error "unsupported group"

/-- Run the pattern compiler from a state over the rest of the pattern; a
pattern that ends inside an escape or a group is a compilation error. -/
def lexRun : LexSt → List Char → Except String (List Tok)
  | st, [] =>
    match st with
    | LexSt.top => Except.ok []
    | _ => Except.error "unterminated construct"
  | st, c :: rest =>
    match lexStep st c with
    | Except.error e => Except.error e
    | Except.ok p => (lexRun p.1 rest).map (fun more => p.2 ++ more)

/-- Model of `re.compile` restricted to the pattern language the engine
emits: `\b` assertions, the two lookaround groups, and escaped or plain
literal characters.  A bad escape, a stray metacharacter, an unsupported
group or a trailing backslash is a compilation error, modelling `re.error`. -/
def lexPat (l : List Char) : Except String (List Tok) := lexRun LexSt.top l

/-- The token list the engine patterns compile to (proved below to be the
result of `lexPat` on `buildPattern`). -/
def patToks (w : List Char) : List Tok :=
  if singleTok w then Tok.wordB :: (w.map Tok.lit ++ [Tok.wordB])
  else Tok.negLB :: (w.map Tok.lit ++ [Tok.negLA])

/-- Word-character test on the optional character adjacent to a position;
the absent character at either end of the string counts as non-word. -/
def optWord : Option Char → Bool
  | none => false
  | some c => wordNat c.toNat

/-- Attempt to match a token list at the start of `s`, where `prev` is the
character immediately before the current position in the subject string.
On success the remaining suffix of `s` is returned.  `\b` matches where
exactly one of the two adjacent positions holds a word character, the
lookarounds where the adjacent position holds no word character, and a
literal matches its case-folded self, modelling `re.IGNORECASE`. -/
def matchToks : List Tok → Option Char → List Char → Option (List Char)
  | [], _, s => some s
  | Tok.wordB :: ts, prev, s =>
    if optWord prev != optWord s.head? then matchToks ts prev s else none
  | Tok.negLB :: ts, prev, s =>
    if optWord prev then none else matchToks ts prev s
  | Tok.negLA :: ts, prev, s =>
    if optWord s.head? then none else matchToks ts prev s
  | Tok.lit c :: ts, _, s =>
    match s with
    | [] => none
    | d :: s2 =>
      if foldNat d.toNat == foldNat c.toNat then matchToks ts (some d) s2 else none

/-- One change record of a correction run, with the field names of the JSON
wire shape: `de` is the exact matched text, `para` the substituted text. -/
structure Change where
  de : List Char
  para : List Char
deriving DecidableEq, Repr

/-- Scanning loop of `pattern.subn`: try a match at every position from left
to right, replace each non-overlapping match by the case-adjusted right form
and record a change, copying unmatched characters through.  The fuel
argument only serves structural termination; `subn` supplies
`s.length + 1`, which is never exhausted because every step consumes at
least one character of `s` or ends the scan. -/
def subnGo (toks : List Tok) (right : List Char) :
    Nat → Option Char → List Char → List Char × List Change
  | 0, _, s => (s, [])
  | Nat.succ fuel, prev, s =>
    match matchToks toks prev s with
    | none =>
      match s with
      | [] => ([], [])
      | c :: s2 =>
        let r := subnGo toks right fuel (some c) s2
        (c :: r.1, r.2)
    | some s2 =>
      if s2.length < s.length then
        let matched := s.take (s.length - s2.length)
        let repl := apply_case_like matched right
        let r := subnGo toks right fuel matched.getLast? s2
        (repl ++ r.1, ⟨matched, repl⟩ :: r.2)
      else
        let repl := apply_case_like [] right
        match s with
        | [] => (repl, [⟨[], repl⟩])
        | c :: s2b =>
          let r := subnGo toks right fuel (some c) s2b
          (repl ++ c :: r.1, ⟨[], repl⟩ :: r.2)

/-- `pattern.subn(_repl, corrected)`: replace every non-overlapping match in
`s`, returning the rewritten string and the change records in match order. -/
def subn (toks : List Tok) (right : List Char) (s : List Char) :
    List Char × List Change :=
  subnGo toks right (s.length + 1) none s

/-- A stored rule row: `id` is the autoincrement key, `wrong` and `right`
the two text forms; `notes` and `created_at` are carried but unused by the
engine. -/
structure Rule where
  id : Nat
  wrong : List Char
  right : List Char
  notes : List Char
  created_at : List Char
deriving DecidableEq, Repr

/-- `correct_text` of `src/app.py` on an already ordered rule list: skip a
rule whose wrong form is the empty string, compile its pattern, substitute
every match, and accumulate the change records across rules.  A compilation
error propagates, as the code has no try/except around `re.compile`. -/
def correct_text : List Rule → List Char → Except String (List Char × List Change)
  | [], text => Except.ok (text, [])
  | r :: rs, text =>
    if r.wrong = [] then correct_text rs text
    else
      match lexPat (buildPattern r.wrong) with
      | Except.error e => Except.error e
      | Except.ok toks =>
        let p := subn toks r.right text
        match correct_text rs p.1 with
        | Except.error e => Except.error e
        | Except.ok q => Except.ok (q.1, p.2 ++ q.2)

/-- The same pass with the compiled token lists inlined; proved equal to
`correct_text` below (`correct_text_eq_run`), which is exactly the statement
that no pattern of the engine fails to compile. -/
def correctRun : List Rule → List Char → List Char × List Change
  | [], text => (text, [])
  | r :: rs, text =>
    if r.wrong = [] then correctRun rs text
    else
      let p := subn (patToks r.wrong) r.right text
      let q := correctRun rs p.1
      (q.1, p.2 ++ q.2)

/-- The order of the rules query (ORDER BY LENGTH of wrong DESC, id DESC):
`a` may come before `b` when the wrong form of `a` is longer, or equally
long with the larger id. -/
def ruleBefore (a b : Rule) : Prop :=
  b.wrong.length < a.wrong.length ∨
    (a.wrong.length = b.wrong.length ∧ b.id ≤ a.id)

instance : DecidableRel ruleBefore := fun a b => by
  unfold ruleBefore; exact inferInstance

instance : IsTotal Rule ruleBefore :=
  ⟨by intro a b; unfold ruleBefore; omega⟩

instance : IsTrans Rule ruleBefore :=
  ⟨by intro a b c hab hbc; unfold ruleBefore at *; omega⟩

/-- `get_rules` of `src/app.py`: the stored rows ordered by descending
length of the wrong form, ties broken by descending id. -/
def get_rules (db : List Rule) : List Rule := List.insertionSort ruleBefore db

/-- The full pipeline: fetch the ordered rules, then run the correction. -/
def correct_db (db : List Rule) (text : List Char) :
    Except String (List Char × List Change) :=
  correct_text (get_rules db) text

/-- Build a rule row from string literals (empty notes and timestamp, which
the engine ignores). -/
def mkRule (i : Nat) (w r : String) : Rule := ⟨i, w.data, r.data, [], []⟩

/-- Build a change record from string literals. -/
def chg (d p : String) : Change := ⟨d.data, p.data⟩

/-! ### Compilation of the generated patterns -/

lemma reSpecial_facts : ∀ c ∈ reSpecial, (c == 'b') = false ∧ c.isAlphanum = false := by
  intro c hc
  fin_cases hc <;> decide

lemma meta_special : ∀ c ∈ reMeta, c ∈ reSpecial := by
  intro c hc
  fin_cases hc <;> decide

lemma not_special_facts {c : Char} (hc : c ∉ reSpecial) :
    (c == '\\') = false ∧ (c == '(') = false ∧ c ∉ reMeta := by
  refine ⟨?_, ?_, fun hm => hc (meta_special c hm)⟩
  · cases h : c == '\\' with
    | false => rfl
    | true =>
      exact absurd (beq_iff_eq.mp h ▸ hc) (fun k => k (by decide))
  · cases h : c == '(' with
    | false => rfl
    | true =>
      exact absurd (beq_iff_eq.mp h ▸ hc) (fun k => k (by decide))

lemma ex_map_id {α : Type} (x : Except String α) : x.map (fun a => a) = x := by
  cases x <;> rfl

lemma ex_map_map {α β γ : Type} (f : α → β) (g : β → γ) (x : Except String α) :
    (x.map f).map g = x.map (fun a => g (f a)) := by
  cases x <;> rfl

/-- Lexing one escaped or plain literal character from the top state yields
its literal token and continues at top level. -/
lemma lexRun_escape_char (c : Char) (rest : List Char) :
    lexRun LexSt.top ((if c ∈ reSpecial then ['\\', c] else [c]) ++ rest) =
      (lexRun LexSt.top rest).map (fun ts => Tok.lit c :: ts) := by
  by_cases hc : c ∈ reSpecial
  · obtain ⟨hb, ha⟩ := reSpecial_facts c hc
    simp [if_pos hc, lexRun, lexStep, hb, ha, ex_map_map, ex_map_id]
  · obtain ⟨hb, hp, hm⟩ := not_special_facts hc
    simp [if_neg hc, lexRun, lexStep, hb, hp, hm, ex_map_map, ex_map_id]

/-- Lexing an escaped literal followed by anything yields literal tokens for
the escaped text followed by the lexing of the remainder. -/
lemma lexPat_escape : ∀ (w tail : List Char),
    lexRun LexSt.top (reEscape w ++ tail) =
      (lexRun LexSt.top tail).map (fun ts => w.map Tok.lit ++ ts) := by
  intro w
  induction w with
  | nil =>
    intro tail
    cases h : lexRun LexSt.top tail <;> simp [reEscape, Except.map, h]
  | cons c w2 ih =>
    intro tail
    simp only [reEscape, List.append_assoc, lexRun_escape_char, ih]
    cases h : lexRun LexSt.top tail <;> simp [Except.map]

/-- Every pattern the engine builds compiles, to the expected token list:
escaping leaves no unescaped metacharacter and no bad escape. -/
lemma lexPat_build (w : List Char) :
    lexPat (buildPattern w) = Except.ok (patToks w) := by
  unfold buildPattern patToks lexPat
  by_cases hs : singleTok w = true
  · simp only [if_pos hs]
    have hw : ∀ l, lexRun LexSt.top ('\\' :: 'b' :: l) =
        (lexRun LexSt.top l).map (fun ts => Tok.wordB :: ts) := by
      intro l; simp [lexRun, lexStep, ex_map_map, ex_map_id]
    rw [hw, lexPat_escape]
    have h2 : lexRun LexSt.top ['\\', 'b'] = Except.ok [Tok.wordB] := rfl
    simp [h2, Except.map]
  · simp only [if_neg hs]
    have hw : ∀ l, lexRun LexSt.top ('(' :: '?' :: '<' :: '!' :: '\\' :: 'w' :: ')' :: l) =
        (lexRun LexSt.top l).map (fun ts => Tok.negLB :: ts) := by
      intro l; simp [lexRun, lexStep, ex_map_map, ex_map_id]
    rw [hw, lexPat_escape]
    have h2 : lexRun LexSt.top ['(', '?', '!', '\\', 'w', ')'] = Except.ok [Tok.negLA] := rfl
    simp [h2, Except.map]

/-- The fallible pass equals the pure pass: no pattern of the engine fails
to compile, so `correct_text` never returns an error. -/
lemma correct_text_eq_run : ∀ (rs : List Rule) (t : List Char),
    correct_text rs t = Except.ok (correctRun rs t) := by
  intro rs
  induction rs with
  | nil => intro t; rfl
  | cons r rs ih =>
    intro t
    by_cases hw : r.wrong = []
    · simp [correct_text, correctRun, hw, ih]
    · simp [correct_text, correctRun, hw, lexPat_build, ih]

/-- Transfer of a computed run to the fallible interface. -/
lemma correct_text_ok (rs : List Rule) (t out : List Char) (chs : List Change)
    (h : correctRun rs t = (out, chs)) :
    correct_text rs t = Except.ok (out, chs) := by
  rw [correct_text_eq_run, h]

/-! ### Matching the compiled patterns -/

/-- Case-insensitive prefix test: `s` starts with a case-folded copy of
`w`. -/
def ciMatches : List Char → List Char → Bool
  | [], _ => true
  | _ :: _, [] => false
  | c :: w, d :: s => (foldNat d.toNat == foldNat c.toNat) && ciMatches w s

/-- Consume a case-insensitive copy of `w` from the front of `s`, tracking
the last consumed character: on success, the new previous character and the
remaining suffix. -/
def ciStrip : List Char → Option Char → List Char → Option (Option Char × List Char)
  | [], prev, s => some (prev, s)
  | c :: w, _, s =>
    match s with
    | [] => none
    | d :: s2 =>
      if foldNat d.toNat == foldNat c.toNat then ciStrip w (some d) s2 else none

/-- Case folding cannot turn a word character into a non-word character or
conversely: two fold-equal code points agree on wordness. -/
lemma word_of_fold {m n : Nat} (hf : foldNat m = foldNat n) (hw : wordNat n = true) :
    wordNat m = true := by
  by_cases hm : upperNat m = true
  · unfold wordNat
    simp [hm]
  · unfold foldNat at hf
    rw [if_neg hm] at hf
    by_cases hn : upperNat n = true
    · rw [if_pos hn] at hf
      unfold upperNat at hn
      unfold wordNat upperNat lowerNat digitNat
      simp only [Bool.or_eq_true, Bool.and_eq_true, Bool.not_eq_eq_eq_not, Bool.not_true,
        Nat.ble_eq, beq_iff_eq, beq_eq_false_iff_ne] at hn ⊢
      omega
    · rw [if_neg hn] at hf
      exact hf ▸ hw

/-- Matching a block of literal tokens followed by anything is consuming a
case-insensitive copy of the literals and then matching the remainder. -/
lemma matchToks_lits (w : List Char) :
    ∀ (ts : List Tok) (prev : Option Char) (s : List Char),
      matchToks (w.map Tok.lit ++ ts) prev s =
        (match ciStrip w prev s with
         | none => none
         | some pr => matchToks ts pr.1 pr.2) := by
  induction w with
  | nil => intro ts prev s; simp [ciStrip]
  | cons c w2 ih =>
    intro ts prev s
    cases s with
    | nil => simp [matchToks, ciStrip]
    | cons d s2 =>
      simp only [List.map, List.cons_append, matchToks, ciStrip]
      by_cases h : (foldNat d.toNat == foldNat c.toNat) = true
      · simp [h, ih]
      · simp [h]

lemma ciStrip_isSome (w : List Char) :
    ∀ (prev : Option Char) (s : List Char),
      (ciStrip w prev s).isSome = ciMatches w s := by
  induction w with
  | nil => intro prev s; simp [ciStrip, ciMatches]
  | cons c w2 ih =>
    intro prev s
    cases s with
    | nil => simp [ciStrip, ciMatches]
    | cons d s2 =>
      simp only [ciStrip, ciMatches]
      by_cases h : (foldNat d.toNat == foldNat c.toNat) = true
      · simp [h, ih]
      · simp [h]

lemma ciStrip_drop (w : List Char) :
    ∀ (prev : Option Char) (s : List Char) (pr : Option Char × List Char),
      ciStrip w prev s = some pr → pr.2 = s.drop w.length := by
  induction w with
  | nil =>
    intro prev s pr h
    simp only [ciStrip, Option.some.injEq] at h
    rw [← h]
    rfl
  | cons c w2 ih =>
    intro prev s pr h
    cases s with
    | nil => simp [ciStrip] at h
    | cons d s2 =>
      simp only [ciStrip] at h
      by_cases hq : (foldNat d.toNat == foldNat c.toNat) = true
      · rw [if_pos hq] at h
        simpa using ih (some d) s2 pr h
      · rw [if_neg hq] at h
        exact absurd h (by simp)

/-- On success the tracked previous character is word-classified whenever
the last literal of a nonempty `w` is. -/
lemma ciStrip_last (w : List Char) :
    ∀ (prev : Option Char) (s : List Char) (pr : Option Char × List Char),
      ciStrip w prev s = some pr → optWord w.getLast? = true → optWord pr.1 = true := by
  induction w with
  | nil =>
    intro prev s pr _ hw
    simp [optWord] at hw
  | cons c w2 ih =>
    intro prev s pr h hw
    cases s with
    | nil => simp [ciStrip] at h
    | cons d s2 =>
      simp only [ciStrip] at h
      by_cases hq : (foldNat d.toNat == foldNat c.toNat) = true
      · rw [if_pos hq] at h
        cases w2 with
        | nil =>
          simp only [ciStrip, Option.some.injEq] at h
          rw [← h]
          simp only [List.getLast?_singleton, optWord] at hw ⊢
          exact word_of_fold (beq_iff_eq.mp hq) hw
        | cons e w3 =>
          refine ih (some d) s2 pr h ?_
          rw [List.getLast?_cons_cons] at hw
          exact hw
      · rw [if_neg hq] at h
        exact absurd h (by simp)

/-- A matching text starts with a word character whenever the pattern
literal does. -/
lemma ciMatches_head (w s : List Char) (h : ciMatches w s = true)
    (hw : optWord w.head? = true) : optWord s.head? = true := by
  cases w with
  | nil => simp [optWord] at hw
  | cons c w2 =>
    cases s with
    | nil => simp [ciMatches] at h
    | cons d s2 =>
      simp only [ciMatches, Bool.and_eq_true] at h
      simp only [List.head?_cons, optWord] at hw ⊢
      exact word_of_fold (beq_iff_eq.mp h.1) hw

/-- Shape of a match of the single-token pattern: boundary, literals,
boundary. -/
lemma matchToks_single (w : List Char) (prev : Option Char) (s : List Char) :
    matchToks (Tok.wordB :: (w.map Tok.lit ++ [Tok.wordB])) prev s =
      (if optWord prev != optWord s.head? then
        (match ciStrip w prev s with
         | none => none
         | some pr => if optWord pr.1 != optWord pr.2.head? then some pr.2 else none)
      else none) := by
  simp only [matchToks]
  by_cases hb : (optWord prev != optWord s.head?) = true
  · rw [if_pos hb, if_pos hb, matchToks_lits]
    cases hc : ciStrip w prev s with
    | none => rfl
    | some pr => simp [matchToks]
  · rw [if_neg hb, if_neg hb]

/-- Shape of a match of the phrase pattern: lookbehind, literals,
lookahead. -/
lemma matchToks_multi (w : List Char) (prev : Option Char) (s : List Char) :
    matchToks (Tok.negLB :: (w.map Tok.lit ++ [Tok.negLA])) prev s =
      (if optWord prev then none
       else
        (match ciStrip w prev s with
         | none => none
         | some pr => if optWord pr.2.head? then none else some pr.2)) := by
  simp only [matchToks]
  by_cases hb : optWord prev = true
  · rw [if_pos hb, if_pos hb]
  · rw [if_neg hb, if_neg hb, matchToks_lits]
    cases hc : ciStrip w prev s with
    | none => rfl
    | some pr => simp [matchToks]

/-! ### The substitution loop -/

/-- A pass that records no change leaves the text untouched. -/
lemma subnGo_nil_changes (toks : List Tok) (right : List Char) :
    ∀ (fuel : Nat) (prev : Option Char) (s out : List Char),
      subnGo toks right fuel prev s = (out, []) → out = s := by
  intro fuel
  induction fuel with
  | zero =>
    intro prev s out h
    simp only [subnGo, Prod.mk.injEq] at h
    exact h.1.symm
  | succ fuel ih =>
    intro prev s out h
    simp only [subnGo] at h
    cases hm : matchToks toks prev s with
    | none =>
      rw [hm] at h
      cases s with
      | nil =>
        simp only [Prod.mk.injEq] at h
        exact h.1.symm
      | cons c s2 =>
        simp only [Prod.mk.injEq] at h
        have hr : (subnGo toks right fuel (some c) s2).1 = s2 :=
          ih (some c) s2 (subnGo toks right fuel (some c) s2).1 (by rw [← h.2])
        rw [← h.1, hr]
    | some s2 =>
      rw [hm] at h
      simp only [] at h
      by_cases hl : s2.length < s.length
      · rw [if_pos hl] at h
        simp only [Prod.mk.injEq] at h
        exact absurd h.2 (List.cons_ne_nil _ _)
      · rw [if_neg hl] at h
        cases s with
        | nil =>
          simp only [Prod.mk.injEq] at h
          exact absurd h.2 (List.cons_ne_nil _ _)
        | cons c s2b =>
          simp only [Prod.mk.injEq] at h
          exact absurd h.2 (List.cons_ne_nil _ _)

lemma subn_nil_changes (toks : List Tok) (right s out : List Char)
    (h : subn toks right s = (out, [])) : out = s :=
  subnGo_nil_changes toks right _ none s out h

/-- A run that records no change leaves the text untouched. -/
lemma correctRun_nil_changes : ∀ (rs : List Rule) (t out : List Char),
    correctRun rs t = (out, []) → out = t := by
  intro rs
  induction rs with
  | nil =>
    intro t out h
    simp only [correctRun, Prod.mk.injEq] at h
    exact h.1.symm
  | cons r rs ih =>
    intro t out h
    by_cases hw : r.wrong = []
    · rw [correctRun, if_pos hw] at h
      exact ih t out h
    · simp only [correctRun, if_neg hw] at h
      rcases hp : subn (patToks r.wrong) r.right t with ⟨p1, p2⟩
      rw [hp] at h
      rcases hq : correctRun rs p1 with ⟨q1, q2⟩
      rw [hq] at h
      simp only [Prod.mk.injEq] at h
      obtain ⟨ho, hnil⟩ := h
      obtain ⟨hp2, hq2⟩ := List.append_eq_nil.mp hnil
      subst hp2
      have ht : p1 = t := subn_nil_changes _ _ _ _ hp
      subst hq2
      rw [← ho, ih p1 q1 hq, ht]

/-- Sequential composition of the pass: the rules of the second block see
the text produced by the first block, and the change records concatenate. -/
lemma correctRun_append : ∀ (rs1 rs2 : List Rule) (t : List Char),
    correctRun (rs1 ++ rs2) t =
      ((correctRun rs2 (correctRun rs1 t).1).1,
       (correctRun rs1 t).2 ++ (correctRun rs2 (correctRun rs1 t).1).2) := by
  intro rs1
  induction rs1 with
  | nil => intro rs2 t; simp [correctRun]
  | cons r rs ih =>
    intro rs2 t
    by_cases hw : r.wrong = []
    · simp [correctRun, hw, ih]
    · simp only [List.cons_append, correctRun, if_neg hw, List.append_eq, ih,
        List.append_assoc]

/-- No engine pattern matches inside the empty string. -/
lemma matchToks_pat_empty (w : List Char) (hw : w ≠ []) :
    matchToks (patToks w) none [] = none := by
  unfold patToks
  cases w with
  | nil => exact absurd rfl hw
  | cons c w2 =>
    by_cases hs : singleTok (c :: w2) = true
    · simp [if_pos hs, matchToks, optWord]
    · simp [if_neg hs, matchToks, optWord]

lemma subn_pat_empty (w : List Char) (hw : w ≠ []) (right : List Char) :
    subn (patToks w) right [] = ([], []) := by
  unfold subn
  simp [subnGo, matchToks_pat_empty w hw]

/-- The whole pass is the identity on the empty input. -/
lemma correctRun_empty : ∀ (rs : List Rule), correctRun rs [] = ([], []) := by
  intro rs
  induction rs with
  | nil => rfl
  | cons r rs ih =>
    by_cases hw : r.wrong = []
    · simp [correctRun, hw, ih]
    · simp [correctRun, hw, subn_pat_empty r.wrong hw, ih]

/-! ### Auxiliary facts for the claims -/

deriving instance DecidableEq for Except

/-- A code point cannot be both upper-case and lower-case. -/
lemma upper_not_lower {n : Nat} (h : upperNat n = true) : lowerNat n = false := by
  cases hl : lowerNat n with
  | false => rfl
  | true =>
    unfold upperNat at h
    unfold lowerNat at hl
    simp only [Bool.or_eq_true, Bool.and_eq_true, Nat.ble_eq, Bool.not_eq_eq_eq_not,
      Bool.not_true, beq_eq_false_iff_ne] at h hl
    omega

/-! ### The claims -/

/-- C1: the engine consumes rules in the order of the rule query, namely
descending length of the wrong form with ties broken by descending id, and
on the rule set of vai to vou together with the phrase nós vai to nós
vamos, correcting nós vai applies the longer phrase rule first and yields
nós vamos with a single change record, not nós vou. -/
theorem c1_rule_order :
    (∀ db : List Rule,
        List.Sorted ruleBefore (get_rules db) ∧ List.Perm (get_rules db) db) ∧
    correct_db [mkRule 1 "vai" "vou", mkRule 2 "nós vai" "nós vamos"] ("nós vai".data) =
      Except.ok ("nós vamos".data, [chg "nós vai" "nós vamos"]) := by
  constructor
  · intro db
    exact ⟨List.sorted_insertionSort ruleBefore db, List.perm_insertionSort ruleBefore db⟩
  · unfold correct_db
    exact correct_text_ok _ _ _ _ (by decide)

/-- C2 counterexample: the single-token wrong form made of the exclamation
mark is replaced between two word characters (inside a!b) and left alone
between two non-word characters (in a ! b), the opposite of the claimed
matches-exactly-when-neighbours-are-non-word condition, which the claim
extends to wrong forms that begin or end with a non-word character. -/
theorem c2_boundary_counterexample :
    correct_text [mkRule 1 "!" "X"] ("a!b".data) =
        Except.ok ("aXb".data, [chg "!" "X"]) ∧
    correct_text [mkRule 1 "!" "X"] ("a ! b".data) =
        Except.ok ("a ! b".data, []) ∧
    wordNat ('a'.toNat) = true ∧ wordNat ('b'.toNat) = true ∧
    wordNat (' '.toNat) = false :=
  ⟨correct_text_ok _ _ _ _ (by decide), correct_text_ok _ _ _ _ (by decide),
    by decide, by decide, by decide⟩

/-- C2 amended: for a single-token wrong form whose first and last
characters are word characters, the compiled pattern matches at a position
exactly when the text there is a case-insensitive copy of the wrong form
and the characters immediately before and after it, if present, are not
word characters; accordingly the rule vai to vou does not fire inside
levaivinda but fires in ele vai embora. -/
theorem c2_single_token_boundaries :
    (∀ (w : List Char) (prev : Option Char) (s : List Char),
        singleTok w = true → optWord w.head? = true → optWord w.getLast? = true →
        ((matchToks (patToks w) prev s).isSome = true ↔
          (ciMatches w s = true ∧ optWord prev = false ∧
            optWord ((s.drop w.length).head?) = false))) ∧
    correct_text [mkRule 1 "vai" "vou"] ("levaivinda".data) =
      Except.ok ("levaivinda".data, []) ∧
    correct_text [mkRule 1 "vai" "vou"] ("ele vai embora".data) =
      Except.ok ("ele vou embora".data, [chg "vai" "vou"]) := by
  refine ⟨?_, correct_text_ok _ _ _ _ (by decide), correct_text_ok _ _ _ _ (by decide)⟩
  intro w prev s hst h1 h2
  rw [patToks, if_pos hst, matchToks_single]
  constructor
  · intro hsome
    by_cases hb : (optWord prev != optWord s.head?) = true
    · rw [if_pos hb] at hsome
      cases hc : ciStrip w prev s with
      | none => rw [hc] at hsome; simp at hsome
      | some pr =>
        rw [hc] at hsome
        simp only [] at hsome
        by_cases hb2 : (optWord pr.1 != optWord pr.2.head?) = true
        · have hm : ciMatches w s = true := by
            rw [← ciStrip_isSome w prev s, hc]; rfl
          have hsh : optWord s.head? = true := ciMatches_head w s hm h1
          have hprev : optWord prev = false := by
            rw [hsh] at hb
            cases hp : optWord prev with
            | false => rfl
            | true => rw [hp] at hb; simp at hb
          have hlast : optWord pr.1 = true := ciStrip_last w prev s pr hc h2
          have hnext : optWord pr.2.head? = false := by
            rw [hlast] at hb2
            cases hn : optWord pr.2.head? with
            | false => rfl
            | true => rw [hn] at hb2; simp at hb2
          refine ⟨hm, hprev, ?_⟩
          rw [← ciStrip_drop w prev s pr hc]
          exact hnext
        · rw [if_neg hb2] at hsome
          simp at hsome
    · rw [if_neg hb] at hsome
      simp at hsome
  · rintro ⟨hm, hprev, hnext⟩
    have hsh : optWord s.head? = true := ciMatches_head w s hm h1
    have hb : (optWord prev != optWord s.head?) = true := by
      rw [hprev, hsh]; rfl
    rw [if_pos hb]
    cases hc : ciStrip w prev s with
    | none =>
      have hcontra := ciStrip_isSome w prev s
      rw [hc, hm] at hcontra
      simp at hcontra
    | some pr =>
      have hlast : optWord pr.1 = true := ciStrip_last w prev s pr hc h2
      have hd : pr.2 = s.drop w.length := ciStrip_drop w prev s pr hc
      have hb2 : (optWord pr.1 != optWord pr.2.head?) = true := by
        rw [hlast, hd, hnext]; rfl
      simp [hb2]

/-- C2 witness: the amended boundary description applied to the rule word
vai, preceded by a space, at the front of the text vai embora. -/
theorem c2_single_token_boundaries_app :
    (matchToks (patToks ("vai".data)) (some ' ') ("vai embora".data)).isSome = true :=
  (c2_single_token_boundaries.1 ("vai".data) (some ' ') ("vai embora".data)
    (by decide) (by decide) (by decide)).mpr ⟨by decide, by decide, by decide⟩

/-- C3: the replacement substituted for a match is the stored right form
case-adjusted from the exact matched text, following the three branches of
apply_case_like, with a length-one upper-case match taking the all-upper
branch; with the rule vai to vou, VAI gives VOU, Vai gives Vou, vai gives
vou and vAi gives vou. -/
theorem c3_case_preservation :
    (∀ (s r : List Char), py_isupper s = true → apply_case_like s r = pyUpper r) ∧
    (∀ (s r : List Char), py_isupper s = false →
        (py_isupper (s.take 1) && py_islower (s.drop 1)) = true →
        apply_case_like s r = pyUpper (r.take 1) ++ r.drop 1) ∧
    (∀ (s r : List Char), py_isupper s = false →
        (py_isupper (s.take 1) && py_islower (s.drop 1)) = false →
        apply_case_like s r = r) ∧
    (∀ (c : Char) (r : List Char), upperNat c.toNat = true →
        apply_case_like [c] r = pyUpper r) ∧
    correct_text [mkRule 1 "vai" "vou"] ("VAI".data) =
      Except.ok ("VOU".data, [chg "VAI" "VOU"]) ∧
    correct_text [mkRule 1 "vai" "vou"] ("Vai".data) =
      Except.ok ("Vou".data, [chg "Vai" "Vou"]) ∧
    correct_text [mkRule 1 "vai" "vou"] ("vai".data) =
      Except.ok ("vou".data, [chg "vai" "vou"]) ∧
    correct_text [mkRule 1 "vai" "vou"] ("vAi".data) =
      Except.ok ("vou".data, [chg "vAi" "vou"]) := by
  refine ⟨?_, ?_, ?_, ?_, correct_text_ok _ _ _ _ (by decide),
    correct_text_ok _ _ _ _ (by decide), correct_text_ok _ _ _ _ (by decide),
    correct_text_ok _ _ _ _ (by decide)⟩
  · intro s r h
    simp [apply_case_like, h]
  · intro s r h1 h2
    unfold apply_case_like
    rw [h1, h2]
    simp
  · intro s r h1 h2
    unfold apply_case_like
    rw [h1, h2]
    simp
  · intro c r h
    have hu : py_isupper [c] = true := by
      simp [py_isupper, isCasedC, h, upper_not_lower h]
    simp [apply_case_like, hu]

/-- C3 witness: each branch of the case-adjustment applied at concrete
matched texts and replacement vou. -/
theorem c3_case_preservation_app :
    apply_case_like ("VAI".data) ("vou".data) = pyUpper ("vou".data) ∧
    apply_case_like ("Vai".data) ("vou".data) =
      pyUpper (("vou".data).take 1) ++ ("vou".data).drop 1 ∧
    apply_case_like ("vAi".data) ("vou".data) = "vou".data ∧
    apply_case_like ['V'] ("vou".data) = pyUpper ("vou".data) :=
  ⟨c3_case_preservation.1 ("VAI".data) ("vou".data) (by decide),
   c3_case_preservation.2.1 ("Vai".data) ("vou".data) (by decide) (by decide),
   c3_case_preservation.2.2.1 ("vAi".data) ("vou".data) (by decide) (by decide),
   c3_case_preservation.2.2.2.1 'V' ("vou".data) (by decide)⟩

/-- C4 counterexample: the wrong form bang-tab-a contains whitespace (a
tab) yet its pattern is the single-token one and it matches directly after
the word character x, so non-word-adjacency at the start of a
whitespace-containing wrong form is not enforced: classification looks
only for the space character. -/
theorem c4_whitespace_counterexample :
    (("!\ta".data).any (fun c => isPySpace c)) = true ∧
    wordNat ('x'.toNat) = true ∧
    correct_text [mkRule 1 "!\ta" "X"] ("x!\ta".data) =
      Except.ok ("xX".data, [chg "!\ta" "X"]) :=
  ⟨by decide, by decide, correct_text_ok _ _ _ _ (by decide)⟩

/-- C4 amended: the lookaround phrase pattern is used exactly for wrong
forms whose stripped text contains a space character; such patterns match
at a position exactly when the text is a case-insensitive copy of the
phrase (its whitespace matched literally) and the adjacent characters are
not word characters; a phrase with one space therefore does not match an
input with two spaces between the words.  Wrong forms containing only
non-space whitespace compile as single tokens with word-boundary
anchors. -/
theorem c4_phrase_lookarounds :
    (∀ (w : List Char) (prev : Option Char) (s : List Char),
        singleTok w = false →
        ((matchToks (patToks w) prev s).isSome = true ↔
          (ciMatches w s = true ∧ optWord prev = false ∧
            optWord ((s.drop w.length).head?) = false))) ∧
    correct_text [mkRule 1 "nós vai" "nós vamos"] ("nós  vai".data) =
      Except.ok ("nós  vai".data, []) := by
  refine ⟨?_, correct_text_ok _ _ _ _ (by decide)⟩
  intro w prev s hst
  rw [patToks, if_neg (by simp [hst] : ¬ singleTok w = true), matchToks_multi]
  constructor
  · intro hsome
    by_cases hb : optWord prev = true
    · rw [if_pos hb] at hsome
      simp at hsome
    · rw [if_neg hb] at hsome
      cases hc : ciStrip w prev s with
      | none => rw [hc] at hsome; simp at hsome
      | some pr =>
        rw [hc] at hsome
        simp only [] at hsome
        by_cases hn : optWord pr.2.head? = true
        · rw [if_pos hn] at hsome
          simp at hsome
        · have hm : ciMatches w s = true := by
            rw [← ciStrip_isSome w prev s, hc]; rfl
          refine ⟨hm, Bool.eq_false_iff.mpr hb, ?_⟩
          rw [← ciStrip_drop w prev s pr hc]
          exact Bool.eq_false_iff.mpr hn
  · rintro ⟨hm, hprev, hnext⟩
    rw [if_neg (by simp [hprev] : ¬ optWord prev = true)]
    cases hc : ciStrip w prev s with
    | none =>
      have hcontra := ciStrip_isSome w prev s
      rw [hc, hm] at hcontra
      simp at hcontra
    | some pr =>
      have hd : pr.2 = s.drop w.length := ciStrip_drop w prev s pr hc
      have hnext2 : optWord pr.2.head? = false := by rw [hd]; exact hnext
      simp [hnext2]

/-- C4 witness: the amended phrase description applied to the phrase nós
vai at the front of nós vai embora. -/
theorem c4_phrase_lookarounds_app :
    (matchToks (patToks ("nós vai".data)) none ("nós vai embora".data)).isSome = true :=
  (c4_phrase_lookarounds.1 ("nós vai".data) none ("nós vai embora".data)
    (by decide)).mpr ⟨by decide, by decide, by decide⟩

/-- C5: rules compose sequentially: a block of rules appended after another
is matched against the text already rewritten by the first block, and the
change lists concatenate. -/
theorem c5_sequential_composition (rs1 rs2 : List Rule) (t t1 t2 : List Char)
    (c1 c2 : List Change)
    (h1 : correct_text rs1 t = Except.ok (t1, c1))
    (h2 : correct_text rs2 t1 = Except.ok (t2, c2)) :
    correct_text (rs1 ++ rs2) t = Except.ok (t2, c1 ++ c2) := by
  rw [correct_text_eq_run] at h1 h2
  have e1 : correctRun rs1 t = (t1, c1) := Except.ok.inj h1
  have e2 : correctRun rs2 t1 = (t2, c2) := Except.ok.inj h2
  rw [correct_text_eq_run, correctRun_append, e1]
  simp [e2]

/-- C5 witness: the two single-word rules applied in sequence to nós vai e
eles foi; the second rule matches inside the output of the first. -/
theorem c5_sequential_composition_app :
    correct_text ([mkRule 2 "vai" "vamos"] ++ [mkRule 1 "foi" "foram"])
        ("nós vai e eles foi".data) =
      Except.ok ("nós vamos e eles foram".data,
        [chg "vai" "vamos"] ++ [chg "foi" "foram"]) :=
  c5_sequential_composition [mkRule 2 "vai" "vamos"] [mkRule 1 "foi" "foram"]
    ("nós vai e eles foi".data) ("nós vamos e eles foi".data)
    ("nós vamos e eles foram".data) [chg "vai" "vamos"] [chg "foi" "foram"]
    (by decide) (by decide)

/-- C6: change records are produced one per replaced match, rule order
outer and left-to-right occurrence order inner: the change list of two
rule blocks is the first block records followed by the second block
records, and correcting nós vai e eles foi with the single-word rules vai
to vamos and foi to foram yields exactly those two records in that order;
a two-occurrence example shows the left-to-right inner order. -/
theorem c6_change_record_order :
    (∀ (rs1 rs2 : List Rule) (t : List Char),
        (correctRun (rs1 ++ rs2) t).2 =
          (correctRun rs1 t).2 ++ (correctRun rs2 (correctRun rs1 t).1).2) ∧
    correct_text [mkRule 2 "vai" "vamos", mkRule 1 "foi" "foram"]
        ("nós vai e eles foi".data) =
      Except.ok ("nós vamos e eles foram".data,
        [chg "vai" "vamos", chg "foi" "foram"]) ∧
    correct_text [mkRule 1 "vai" "vou"] ("Vai vai".data) =
      Except.ok ("Vou vou".data, [chg "Vai" "Vou", chg "vai" "vou"]) := by
  refine ⟨?_, correct_text_ok _ _ _ _ (by decide), correct_text_ok _ _ _ _ (by decide)⟩
  intro rs1 rs2 t
  rw [correctRun_append]

/-- C7: the correction is total: for every rule list and every input text
the engine returns a result and no error escapes, because every pattern it
builds is fully escaped and compiles; in particular the skip-on-compilation
failure clause is vacuous, as no rule can fail to compile. -/
theorem c7_totality : ∀ (rs : List Rule) (t : List Char),
    ∃ p, correct_text rs t = Except.ok p :=
  fun rs t => ⟨correctRun rs t, correct_text_eq_run rs t⟩

/-- C8 counterexample: a rule whose wrong form is a single space trims to
the empty string, yet the engine compiles and matches it: it rewrites a b
to aXb with one change record instead of being skipped. -/
theorem c8_whitespace_wrong_counterexample :
    pyStrip (" ".data) = [] ∧
    correct_text [mkRule 1 " " "X"] ("a b".data) =
      Except.ok ("aXb".data, [chg " " "X"]) :=
  ⟨by decide, correct_text_ok _ _ _ _ (by decide)⟩

/-- C8 amended: only a rule whose wrong form is the empty string itself is
skipped by the engine (it is never compiled, matches nothing and leaves
text and change list untouched); a wrong form that is non-empty but only
whitespace is compiled and can match. -/
theorem c8_empty_wrong_skipped :
    ∀ (i : Nat) (rr nts ca : List Char) (rs : List Rule) (t : List Char),
      correct_text (⟨i, [], rr, nts, ca⟩ :: rs) t = correct_text rs t := by
  intro i rr nts ca rs t
  simp [correct_text]

/-- C9: with no rules the correction returns the text unchanged with no
changes; the empty input is returned unchanged with no changes for every
rule list; and whenever a correction reports an empty change list the
output text equals the input. -/
theorem c9_no_match_identity :
    (∀ t : List Char, correct_text [] t = Except.ok (t, [])) ∧
    (∀ rs : List Rule, correct_text rs [] = Except.ok ([], [])) ∧
    (∀ (rs : List Rule) (t out : List Char),
        correct_text rs t = Except.ok (out, []) → out = t) := by
  refine ⟨fun t => rfl, ?_, ?_⟩
  · intro rs
    rw [correct_text_eq_run, correctRun_empty]
  · intro rs t out h
    rw [correct_text_eq_run] at h
    exact correctRun_nil_changes rs t out (Except.ok.inj h)

/-- C9 witness: the no-rules identity, the empty-input identity and the
empty-change-list identity at concrete inputs. -/
theorem c9_no_match_identity_app :
    correct_text [] ("olá".data) = Except.ok ("olá".data, []) ∧
    correct_text [mkRule 1 "vai" "vou"] [] = Except.ok ([], []) ∧
    ("ele corre".data : List Char) = "ele corre".data :=
  ⟨c9_no_match_identity.1 ("olá".data),
   c9_no_match_identity.2.1 [mkRule 1 "vai" "vou"],
   c9_no_match_identity.2.2 [mkRule 1 "vai" "vou"] ("ele corre".data)
     ("ele corre".data) (by decide)⟩

/-- C10: a change record is appended even when the computed replacement
equals the matched text: the rule vai to vai leaves ele vai unchanged yet
returns a non-empty change list. -/
theorem c10_identical_replacement_recorded :
    correct_text [mkRule 1 "vai" "vai"] ("ele vai".data) =
      Except.ok ("ele vai".data, [chg "vai" "vai"]) ∧
    ([chg "vai" "vai"] : List Change) ≠ [] :=
  ⟨correct_text_ok _ _ _ _ (by decide), by decide⟩
